import Mathlib

/-!
Verification development for the pattern-bench harness.

The harness generates randomized masked-pattern scenarios inside a guarded
memory region, computes ground truth with a brute-force oracle, executes the
registered scanner plugins, verifies each result set against the expected set,
and ranks the scanners by failures then elapsed cycles.

Machine integers are modelled as `Nat` with explicit reduction modulo `2 ^ 32`
or `2 ^ 64` where C++ overflow semantics matter.  Standard-library components
used by the harness (std::minstd_rand0, std::seed_seq, std::mt19937) are
implemented from their textbook algorithms; the distribution adaptors
(std::uniform_int_distribution, std::bernoulli_distribution) have
implementation-defined value mappings and are modelled as single-draw
functions of the engine.
-/

namespace PatternBench

/-- Truncation to an unsigned 32-bit value. -/
def u32 (x : Nat) : Nat := x % 2 ^ 32

/-- One step of std::minstd_rand0: multiply by 16807 modulo 2147483647. -/
def minstd0_next (x : Nat) : Nat := x * 16807 % 2147483647

/-- Seeding of std::minstd_rand0: the state is the seed modulo the modulus,
replaced by 1 when that is zero. -/
def minstd0_init (seed : Nat) : Nat :=
  let x := seed % 2147483647
  if x = 0 then 1 else x

/-- The first `k` outputs of minstd_rand0 from state `x` (each call first
advances the state, then returns it). -/
def minstd0_stream : Nat → Nat → List Nat
  | 0, _ => []
  | k + 1, x =>
    let x := minstd0_next x
    x :: minstd0_stream k x

/-- The scrambling function of std::seed_seq::generate. -/
def seedseq_T (x : Nat) : Nat := x ^^^ (x >>> 27)

/-- First pass of std::seed_seq::generate (n = 624, p = 306, q = 317) at
index `k`, over input seeds `v` and working buffer `b`. -/
def seedseq_step1 (v : List Nat) (b : List Nat) (k : Nat) : List Nat :=
  let n := 624
  let s := v.length
  let r1 := u32 (1664525 *
    seedseq_T ((b.getD (k % n) 0 ^^^ b.getD ((k + 306) % n) 0) ^^^ b.getD ((k + n - 1) % n) 0))
  let j := if k = 0 then s else if k ≤ s then k % n + v.getD (k - 1) 0 else k % n
  let r2 := u32 (r1 + j)
  let b := b.set ((k + 306) % n) (u32 (b.getD ((k + 306) % n) 0 + r1))
  let b := b.set ((k + 317) % n) (u32 (b.getD ((k + 317) % n) 0 + r2))
  b.set (k % n) r2

/-- Second pass of std::seed_seq::generate at index `k`. -/
def seedseq_step2 (b : List Nat) (k : Nat) : List Nat :=
  let n := 624
  let r3 := u32 (1566083941 *
    seedseq_T (u32 (b.getD (k % n) 0 + b.getD ((k + 306) % n) 0 + b.getD ((k + n - 1) % n) 0)))
  let r4 := (r3 + 2 ^ 32 - k % n) % 2 ^ 32
  let b := b.set ((k + 306) % n) (b.getD ((k + 306) % n) 0 ^^^ r3)
  let b := b.set ((k + 317) % n) (b.getD ((k + 317) % n) 0 ^^^ r4)
  b.set (k % n) r4

/-- std::seed_seq::generate producing 624 32-bit words from the seed list `v`. -/
def seedseq_generate (v : List Nat) : List Nat :=
  let n := 624
  let b0 := List.replicate n 0x8b8b8b8b
  let m := max (v.length + 1) n
  let b1 := (List.range m).foldl (seedseq_step1 v) b0
  (List.range n).foldl (fun b i => seedseq_step2 b (i + m)) b1

/-- State of a std::mt19937 engine: 624 32-bit words plus the read index. -/
structure MT where
  words : List Nat
  index : Nat
deriving DecidableEq

/-- One position of the MT19937 twist, updating the state in place. -/
def twist_step (w : List Nat) (i : Nat) : List Nat :=
  let x := (w.getD i 0 &&& 0x80000000) + (w.getD ((i + 1) % 624) 0 &&& 0x7FFFFFFF)
  let xA := x >>> 1
  let xA := if x % 2 = 1 then xA ^^^ 0x9908B0DF else xA
  w.set i (w.getD ((i + 397) % 624) 0 ^^^ xA)

/-- The full MT19937 twist over all 624 state words. -/
def twist (w : List Nat) : List Nat := (List.range 624).foldl twist_step w

/-- The MT19937 tempering transform. -/
def temper (y : Nat) : Nat :=
  let y := y ^^^ (y >>> 11)
  let y := y ^^^ ((y <<< 7) &&& 0x9D2C5680)
  let y := y ^^^ ((y <<< 15) &&& 0xEFC60000)
  y ^^^ (y >>> 18)

/-- Draw one 32-bit output from the engine: twist when the index is exhausted,
then temper the current word. -/
def mt_next (g : MT) : Nat × MT :=
  let g := if 624 ≤ g.index then MT.mk (twist g.words) 0 else g
  (temper (g.words.getD g.index 0), MT.mk g.words (g.index + 1))

/-- Construction of std::mt19937 from a seed sequence: the state words come
from `seedseq_generate`; an (effectively) all-zero state is replaced by
`2 ^ 31` in the first word; the index starts exhausted. -/
def mt_from_seedseq (v : List Nat) : MT :=
  let st := seedseq_generate v
  let st :=
    if st.getD 0 0 &&& 0x80000000 = 0 ∧ ∀ i ∈ List.range 623, st.getD (i + 1) 0 = 0
    then st.set 0 (2 ^ 31) else st
  MT.mk st 624

/-- From `create_twister` (part_000 lines 49-66): a zero seed is replaced from
the entropy source (std::random_device, modelled by the `entropy` argument);
the resolved seed drives a minstd_rand0 that emits 624 words, which seed the
mt19937 through a seed_seq.  Returns the resolved seed and the engine. -/
def create_twister (seed : Nat) (entropy : Nat) : Nat × MT :=
  let seed := if seed = 0 then u32 entropy else seed
  let random_data := minstd0_stream 624 (minstd0_init seed)
  (seed, mt_from_seedseq random_data)

/-- Model of std::uniform_int_distribution on [lo, hi]: one engine draw,
reduced to the range (the exact mapping is implementation-defined). -/
def uniform_int (lo hi : Nat) (g : MT) : Nat × MT :=
  let (y, g) := mt_next g
  (lo + y % (hi - lo + 1), g)

/-- Model of std::bernoulli_distribution(0.9): one engine draw compared
against the 0.9 threshold of the 32-bit range. -/
def bernoulli9 (g : MT) : Bool × MT :=
  let (y, g) := mt_next g
  (y * 10 < 2 ^ 32 * 9, g)

/-- Modelled from the spec: `FindPatternSimple` is declared in
`pattern_entry.h`, which is not among the provided sources.  Per spec section
4.4 (Oracle) and section 6 (`find_all(data, length, pattern, mask)`), it is the
exhaustive masked search: every start offset where the pattern fits and every
fixed-mask (non-wildcard) position matches.  This function returns the match
offsets; `FindPatternSimple` turns them into absolute addresses. -/
def find_all (data : List Nat) (pattern : List Nat) (mask : List Char) : List Nat :=
  (List.range (data.length + 1 - pattern.length)).filter fun o =>
    (List.range pattern.length).all fun j =>
      mask.getD j '?' = '?' ∨ data.getD (o + j) 0 = pattern.getD j 0

/-- Modelled from the spec: the address-level oracle, returning pointers
`data + offset` with `base` the address of `data`. -/
def FindPatternSimple (base : Nat) (data : List Nat) (pattern : List Nat)
    (mask : List Char) : List Nat :=
  (find_all data pattern mask).map (fun o => base + o)

/-- Pointer subtraction `result - data()` on 64-bit machine words
(part_000 line 193). -/
def shift_offset (base : Nat) (r : Nat) : Nat := (2 ^ 64 + r - base) % 2 ^ 64

/-- From `scan_bench::shift_results` (lines 187-197): the set of relative
offsets obtained by subtracting the window base from each absolute result. -/
def shift_results (base : Nat) (results : List Nat) : Finset Nat :=
  (results.map (shift_offset base)).toFinset

/-- From `scan_bench::check_results` (lines 260-297): fail on a cardinality
mismatch, then fail if any shifted result is not in the expected set. -/
def check_results (expected : Finset Nat) (base : Nat) (results : List Nat) : Bool :=
  let shifted := shift_results base results
  if shifted.card ≠ expected.card then false
  else decide (∀ r ∈ shifted, r ∈ expected)

/-- Rounding a byte count up to the page size, from
`full_size_ = (region_size + page_size - 1) / page_size * page_size`
(part_000 line 132). -/
def page_ceil (region_size : Nat) (page_size : Nat) : Nat :=
  (region_size + page_size - 1) / page_size * page_size

/-- Protection state of one byte of the raw allocation. -/
inductive prot_flags
  | rw
  | noaccess
deriving DecidableEq

/-- Layout of the guarded region: sizes, the offset of the usable window
inside the raw allocation, and the per-byte protection map. -/
structure region_layout where
  full_size : Nat
  raw_size : Nat
  window_off : Nat
  prot : Nat → prot_flags

/-- Model of mem::protect_modify restricted to the raw allocation: bytes in
[base, base + len) take protection `f`, the rest keep theirs. -/
def protect_modify (p : Nat → prot_flags) (base len : Nat) (f : prot_flags) : Nat → prot_flags :=
  fun a => if base ≤ a ∧ a < base + len then f else p a

/-- From `scan_bench::reset(region_data, region_size)` (lines 128-141):
page-round the size, allocate `full_size + 2 * page_size` bytes read/write,
set the first and the last page to no-access; the usable window begins
`page_size` bytes past the raw base. -/
def reset_layout (region_size : Nat) (page_size : Nat) : region_layout :=
  let full_size := page_ceil region_size page_size
  let raw_size := full_size + page_size * 2
  let prot0 : Nat → prot_flags := fun _ => prot_flags.rw
  let prot1 := protect_modify prot0 0 page_size prot_flags.noaccess
  let prot2 := protect_modify prot1 (raw_size - page_size) page_size prot_flags.noaccess
  { full_size := full_size, raw_size := raw_size, window_off := page_size, prot := prot2 }

/-- From the file branch of `reset` (lines 142-148): zero the first
`full_size - region_size` bytes of the window, then copy the supplied content
behind them (content right-aligned). -/
def reset_fill (content : List Nat) (page_size : Nat) : List Nat :=
  let full_size := page_ceil content.length page_size
  let extra := full_size - content.length
  List.replicate extra 0 ++ content

/-- The stamping loop of `scan_bench::generate` (lines 250-254), processing
positions `j, j + 1, ...` of the pattern: every non-wildcard position writes
its pattern byte at window index `offset + j`. -/
def stamp_from (w : List Nat) (offset : Nat) (pattern : List Nat) (masks : List Char)
    (j : Nat) : List Nat :=
  if h : j < pattern.length then
    let w := if masks.getD j '?' ≠ '?' then w.set (offset + j) (pattern.getD j 0) else w
    stamp_from w offset pattern masks (j + 1)
  else w
termination_by pattern.length - j
decreasing_by omega

/-- One implanted occurrence at window offset `offset`. -/
def stamp (w : List Nat) (offset : Nat) (pattern : List Nat) (masks : List Char) : List Nat :=
  stamp_from w offset pattern masks 0

/-- Per-scanner counters (pattern_scanner::Failed and ::Elapsed), accumulated
across the whole run. -/
structure scanner_stats where
  Failed : Nat
  Elapsed : Nat
deriving DecidableEq

/-- Outcome of one Scan call: a vector of absolute result addresses, or any
runtime fault caught by the catch-all boundary. -/
inductive scan_outcome
  | ok (results : List Nat)
  | fault
deriving DecidableEq

/-- From the executor loop body in main (lines 329-353): on a normal return a
verification mismatch adds one failure; on a fault the failure counter is
incremented; either way `end_clock - start_clock` is added to the scanner's
cumulative elapsed-cycle counter. -/
def run_one (expected : Finset Nat) (base : Nat) (oc : scan_outcome)
    (start_clock end_clock : Nat) (sc : scanner_stats) : scanner_stats :=
  let failed :=
    match oc with
    | .ok results => if check_results expected base results then sc.Failed else sc.Failed + 1
    | .fault => sc.Failed + 1
  { Failed := failed, Elapsed := sc.Elapsed + (end_clock - start_clock) }

/-- The executor pass over the registered scanners for one scenario, in
registration order; each entry carries a scanner's counters, its scan outcome
and its start/end timestamps. -/
def run_all (expected : Finset Nat) (base : Nat) :
    List (scanner_stats × scan_outcome × Nat × Nat) → List scanner_stats
  | [] => []
  | (sc, oc, s, e) :: rest => run_one expected base oc s e sc :: run_all expected base rest

/-- The std::sort comparator from main (lines 357-365): fewer failures first,
ties broken by fewer elapsed cycles. -/
def rank_lt (lhs rhs : scanner_stats) : Bool :=
  if lhs.Failed ≠ rhs.Failed then decide (lhs.Failed < rhs.Failed)
  else decide (lhs.Elapsed < rhs.Elapsed)

/-- The ordering a comparison sort realizes from the strict-weak comparator
`rank_lt`: `l` may precede `r` exactly when `r` does not strictly precede
`l`. -/
def rank_le (l r : scanner_stats) : Prop := rank_lt r l = false

instance : DecidableRel rank_le :=
  fun l r => inferInstanceAs (Decidable (rank_lt r l = false))

/-- The final ranking: the registered scanners sorted with the comparator
(std::sort modelled as a sort producing a `rank_le`-sorted permutation). -/
def ranking (ps : List scanner_stats) : List scanner_stats := List.insertionSort rank_le ps

/-- Positions of the mask loop body (lines 223-237), processed left to right:
with probability 0.9 a position is fixed (random byte, mask 'x'), otherwise
the byte is forced to 0 with mask '?'. The accumulator carries the pattern
bytes and mask characters built so far. -/
def gen_round_aux : Nat → List Nat × List Char × MT → List Nat × List Char × MT
  | 0, acc => acc
  | k + 1, acc =>
    let p := acc.1
    let m := acc.2.1
    let bg := bernoulli9 acc.2.2
    if bg.1 then
      let yg := uniform_int 0 255 bg.2
      gen_round_aux k (p ++ [yg.1], m ++ ['x'], yg.2)
    else
      gen_round_aux k (p ++ [0], m ++ ['?'], bg.2)

/-- One full pass of the do-while body over all pattern positions. -/
def gen_round (plen : Nat) (g : MT) : List Nat × List Char × MT :=
  gen_round_aux plen ([], [], g)

/-- The pattern do-while loop: a pass that drew only wildcards (no position
set `all_masks` to false) is rejected and the whole pattern regenerated.  The
C++ loop is unbounded; `fuel` bounds the modelled retries. -/
def gen_pattern (plen : Nat) : Nat → MT → Option (List Nat × List Char × MT)
  | 0, _ => none
  | fuel + 1, g =>
    let r := gen_round plen g
    if r.2.1.contains 'x' then some r else gen_pattern plen fuel r.2.2

/-- Everything one generation cycle publishes: the window offset (variation),
the pattern and mask, the implant offsets, and the expected set. -/
structure scen_record where
  variation : Nat
  pattern : List Nat
  masks : List Char
  offsets : List Nat
  expected : Finset Nat
deriving DecidableEq

/-- Mutable state of scan_bench between generation cycles: the window bytes
and the engine. -/
structure bench_state where
  full_data : List Nat
  rng : MT
deriving DecidableEq

/-- Fuel bound for the unbounded pattern do-while loop. -/
def PATTERN_ROUNDS : Nat := 2 ^ 64

/-- The occurrence loop (lines 246-255): `cnt` times, draw a uniformly random
offset in [0, size - pattern_length] and stamp the fixed positions there.
Window indices are relative to `full_data`; the scenario window starts at
`variation`. -/
def stamp_occurrences (variation size plen : Nat) (pattern : List Nat) (masks : List Char) :
    Nat → List Nat → MT → List Nat × List Nat × MT
  | 0, w, g => ([], w, g)
  | k + 1, w, g =>
    let og := uniform_int 0 (size - plen) g
    let w2 := stamp w (variation + og.1) pattern masks
    let rest := stamp_occurrences variation size plen pattern masks k w2 og.2
    (og.1 :: rest.1, rest.2.1, rest.2.2)

/-- scan_bench::generate (lines 199-258): pick the window variation, the
pattern length, the pattern and mask (rejecting all-wildcard passes), the
occurrence count, stamp the occurrences, then recompute the expected set from
the final window bytes with the oracle. -/
def generate (b : bench_state) : Option (scen_record × bench_state) :=
  let full_size := b.full_data.length
  let vg := uniform_int 0 100 b.rng
  let variation := vg.1
  let size := full_size - variation
  let lg := uniform_int 5 32 vg.2
  match gen_pattern lg.1 PATTERN_ROUNDS lg.2 with
  | none => none
  | some (p, m, g) =>
    let cg := uniform_int 2 10 g
    let sg := stamp_occurrences variation size p.length p m cg.1 b.full_data cg.2
    let window := sg.2.1.drop variation
    let expected := (find_all window p m).toFinset
    some ({ variation := variation, pattern := p, masks := m, offsets := sg.1,
            expected := expected },
          { full_data := sg.2.1, rng := sg.2.2 })

/-- The scenario loop of main (lines 323-355) restricted to generation: the
sequence of scenario records over `n` iterations. -/
def run_scenarios : Nat → bench_state → List scen_record
  | 0, _ => []
  | n + 1, b =>
    match generate b with
    | none => []
    | some (r, b') => r :: run_scenarios n b'

/-- The random fill of the region (lines 149-154): `n` draws from the byte
distribution. -/
def gen_fill : Nat → MT → List Nat × MT
  | 0, g => ([], g)
  | n + 1, g =>
    let yg := uniform_int 0 255 g
    let rest := gen_fill n yg.2
    (yg.1 :: rest.1, rest.2)

/-- Default region size (64 MiB) from part_000 line 42. -/
def REGION_SIZE : Nat := 64 * 1024 * 1024

/-- Number of scenarios per run, from part_000 line 43. -/
def TEST_COUNT : Nat := 512

/-- A whole run's scenario sequence: resolve the seed and build the engine,
fill the region (from the optional file content, else with random bytes), and
generate `TEST_COUNT` scenarios.  `entropy` models std::random_device and
`page_size` the platform page size. -/
def run_bench (seed entropy page_size : Nat) (src : Option (List Nat)) : List scen_record :=
  let sg := create_twister seed entropy
  match src with
  | some content =>
    run_scenarios TEST_COUNT { full_data := reset_fill content page_size, rng := sg.2 }
  | none =>
    let full := page_ceil REGION_SIZE page_size
    let wg := gen_fill full sg.2
    run_scenarios TEST_COUNT { full_data := wg.1, rng := wg.2 }

/-- From baseline.cpp simple_pattern_scanner (lines 22-43): Init stores the
scenario's pattern and mask, and Scan returns
`FindPatternSimple(data, length, CurrentPattern, CurrentMask)`. -/
def simple_scan (base : Nat) (data : List Nat) (pattern : List Nat)
    (mask : List Char) : List Nat :=
  FindPatternSimple base data pattern mask

/-- The haystack file as the process sees it: either the open fails (absent
file or no read permission), or it opens with a reported length but the read
fails, or it opens and the read delivers the content. -/
inductive file_source
  | no_open
  | read_fails (len : Nat)
  | content (bytes : List Nat)
deriving DecidableEq

/-- tellg on a stream whose open failed returns pos_type(-1); the cast to
size_t in read_file (line 72) turns that into 2^64 - 1. -/
def tellg_length : file_source → Nat
  | .no_open => 2 ^ 64 - 1
  | .read_fails n => n
  | .content bs => bs.length

/-- Model of the mem::byte_buffer allocation in read_file (line 76): a
request at or beyond 2^47 bytes exceeds any addressable memory and throws
bad_alloc, modelled as an error that aborts the process when it escapes
main. -/
def byte_buffer_alloc (n : Nat) : Except Unit (List Nat) :=
  if n < 2 ^ 47 then Except.ok (List.replicate n 0) else Except.error ()

/-- read_file (lines 68-84): size the buffer from tellg, then read; a failed
read leaves an empty buffer (resize(0)). -/
def read_file (f : file_source) : Except Unit (List Nat) := do
  let length := tellg_length f
  let _buf ← byte_buffer_alloc length
  match f with
  | .content bs => Except.ok bs
  | _ => Except.ok []

/-- reset(const char*) (lines 121-126) as called from main: read the file and
re-fill the region from it; an escaping allocation failure aborts. -/
def setup_from_file (f : file_source) (page_size : Nat) : Except Unit (List Nat) := do
  let region_data ← read_file f
  Except.ok (reset_fill region_data page_size)

/-- Verifier soundness, shared between C1 and C9: the boolean check succeeds
exactly when the shifted result set equals the expected set. -/
theorem check_results_true_iff (expected : Finset Nat) (base : Nat) (results : List Nat) :
    check_results expected base results = true ↔ shift_results base results = expected := by
  unfold check_results
  by_cases hc : (shift_results base results).card = expected.card
  · simp only [hc, ne_eq, not_true_eq_false, if_false, decide_eq_true_eq]
    constructor
    · intro h
      exact Finset.eq_of_subset_of_card_le (fun r hr => h r hr) (le_of_eq hc.symm)
    · intro h
      subst h
      exact fun r hr => hr
  · simp only [ne_eq, hc, not_false_eq_true, if_true, Bool.false_eq_true, false_iff]
    exact fun h : shift_results base results = expected => hc (by rw [h])

/-- Page-ceiling bounds: the rounded size is a multiple of the page size and
is the least such value above the requested size. -/
theorem page_ceil_spec (size page : Nat) (hp : 0 < page) :
    page_ceil size page % page = 0 ∧ size ≤ page_ceil size page ∧
      page_ceil size page < size + page := by
  have hdm := Nat.div_add_mod (size + page - 1) page
  have hr : (size + page - 1) % page < page := Nat.mod_lt _ hp
  unfold page_ceil
  refine ⟨Nat.mul_mod_left _ _, ?_, ?_⟩
  · set q := (size + page - 1) / page with hq
    set r := (size + page - 1) % page with hrdef
    have : q * page + r = size + page - 1 := by rw [hq, hrdef, Nat.mul_comm]; exact hdm
    omega
  · set q := (size + page - 1) / page with hq
    set r := (size + page - 1) % page with hrdef
    have : q * page + r = size + page - 1 := by rw [hq, hrdef, Nat.mul_comm]; exact hdm
    omega

theorem stamp_from_length (w : List Nat) (offset : Nat) (pattern : List Nat)
    (masks : List Char) (j : Nat) :
    (stamp_from w offset pattern masks j).length = w.length := by
  induction w, offset, pattern, masks, j using stamp_from.induct with
  | case1 w offset pattern masks j h w' ih =>
    rw [stamp_from, dif_pos h]
    have h2 : w'.length = w.length := by
      simp only [w']
      split <;> simp
    exact ih.trans h2
  | case2 w offset pattern masks j h =>
    rw [stamp_from, dif_neg h]

theorem stamp_from_getD_untouched (w : List Nat) (offset : Nat) (pattern : List Nat)
    (masks : List Char) (j : Nat) :
    ∀ k, (∀ i, j ≤ i → i < pattern.length → masks.getD i '?' ≠ '?' → k ≠ offset + i) →
      (stamp_from w offset pattern masks j).getD k 0 = w.getD k 0 := by
  induction w, offset, pattern, masks, j using stamp_from.induct with
  | case1 w offset pattern masks j h w' ih =>
    intro k hk
    rw [stamp_from, dif_pos h]
    have hrec := ih k (fun i h1 h2 h3 => hk i (by omega) h2 h3)
    have h2 : w'.getD k 0 = w.getD k 0 := by
      simp only [w']
      split
      · rename_i hm
        have hne : k ≠ offset + j := hk j (le_refl j) h hm
        simp [List.getD_eq_getElem?_getD, List.getElem?_set_ne (Ne.symm hne)]
      · rfl
    exact hrec.trans h2
  | case2 w offset pattern masks j h =>
    intro k _
    rw [stamp_from, dif_neg h]

theorem stamp_from_getD_stamped (w : List Nat) (offset : Nat) (pattern : List Nat)
    (masks : List Char) (j : Nat) :
    ∀ i, j ≤ i → i < pattern.length → masks.getD i '?' ≠ '?' → offset + i < w.length →
      (stamp_from w offset pattern masks j).getD (offset + i) 0 = pattern.getD i 0 := by
  induction w, offset, pattern, masks, j using stamp_from.induct with
  | case1 w offset pattern masks j h w' ih =>
    intro i hji hi hm hw
    rw [stamp_from, dif_pos h]
    have hlen : w'.length = w.length := by
      simp only [w']
      split <;> simp
    by_cases hij : i = j
    · subst hij
      have huntouched := stamp_from_getD_untouched w' offset pattern masks (i + 1) (offset + i)
        (fun i' h1 _ _ => by omega)
      have h2 : w'.getD (offset + i) 0 = pattern.getD i 0 := by
        simp only [w']
        rw [dif_pos hm]
        simp [List.getD_eq_getElem?_getD, List.getElem?_set_self hw]
      exact huntouched.trans h2
    · have hw' : offset + i < w'.length := by omega
      exact ih i (by omega) hi hm hw'
  | case2 w offset pattern masks j h =>
    intro i hji hi _ _
    exact absurd (Nat.lt_of_le_of_lt hji hi) h

/-- Claim C8: a single occurrence stamp overwrites exactly the window bytes at
`offset + j` for the fixed-mask (mask `'x'`) positions `j`, writing the pattern
byte there; every other window byte — wildcard positions included — keeps its
previous value. -/
theorem stamp_frame (w : List Nat) (offset : Nat) (pattern : List Nat) (masks : List Char)
    (hm : ∀ c ∈ masks, c = 'x' ∨ c = '?') :
    (∀ j, j < pattern.length → masks.getD j '?' = 'x' → offset + j < w.length →
        (stamp w offset pattern masks).getD (offset + j) 0 = pattern.getD j 0)
    ∧ ∀ k, (∀ j, j < pattern.length → masks.getD j '?' = 'x' → k ≠ offset + j) →
        (stamp w offset pattern masks).getD k 0 = w.getD k 0 := by
  constructor
  · intro j hj hx hw
    exact stamp_from_getD_stamped w offset pattern masks 0 j (Nat.zero_le j) hj
      (by rw [hx]; decide) hw
  · intro k hk
    refine stamp_from_getD_untouched w offset pattern masks 0 k ?_
    intro i _ hi hne
    by_cases hil : i < masks.length
    · have hmem : masks.getD i '?' ∈ masks := by
        rw [List.getD_eq_getElem masks '?' hil]
        exact List.getElem_mem hil
      rcases hm _ hmem with hx | hq
      · exact hk i hi hx
      · exact absurd hq hne
    · have : masks.getD i '?' = '?' := List.getD_eq_default _ _ (Nat.le_of_not_lt hil)
      exact absurd this hne

/-- Claim C4: a faulting scan increments that scanner's failure counter by
exactly one and still adds `end - start` to its elapsed-cycle counter, and the
executor processes every scanner independently — each scanner's resulting
counters are a function of its own entry alone, so no fault aborts the pass or
touches another scanner's counters. -/
theorem executor_fault_isolated (expected : Finset Nat) (base : Nat) :
    (∀ entries, run_all expected base entries =
        entries.map fun x => run_one expected base x.2.1 x.2.2.1 x.2.2.2 x.1)
    ∧ ∀ (sc : scanner_stats) (s e : Nat),
        run_one expected base scan_outcome.fault s e sc =
          { Failed := sc.Failed + 1, Elapsed := sc.Elapsed + (e - s) } := by
  constructor
  · intro entries
    induction entries with
    | nil => rfl
    | cons x rest ih =>
      obtain ⟨sc, oc, s, e⟩ := x
      simp only [run_all, ih, List.map_cons]
  · intro sc s e
    rfl

theorem rank_le_iff (l r : scanner_stats) :
    rank_le l r ↔ l.Failed < r.Failed ∨ (l.Failed = r.Failed ∧ l.Elapsed ≤ r.Elapsed) := by
  unfold rank_le rank_lt
  split_ifs with h
  · rw [decide_eq_false_iff_not]
    omega
  · rw [decide_eq_false_iff_not]
    omega

instance : IsTotal scanner_stats rank_le :=
  ⟨by intro a b; rw [rank_le_iff, rank_le_iff]; omega⟩

instance : IsTrans scanner_stats rank_le :=
  ⟨by intro a b c hab hbc; rw [rank_le_iff] at hab hbc ⊢; omega⟩

/-- Claim C2: the final ranking is a permutation of the scanners ordered by
ascending failure count first and ascending cumulative elapsed cycles second;
the comparator holds exactly on the lexicographic order, so unequal failure
counts are decided by failures alone and ties by cycles. -/
theorem ranking_spec (ps : List scanner_stats) :
    List.Perm (ranking ps) ps
    ∧ List.Pairwise
        (fun l r => l.Failed < r.Failed ∨ (l.Failed = r.Failed ∧ l.Elapsed ≤ r.Elapsed))
        (ranking ps)
    ∧ ∀ l r : scanner_stats,
        rank_lt l r = true ↔
          (l.Failed < r.Failed ∨ (l.Failed = r.Failed ∧ l.Elapsed < r.Elapsed)) := by
  refine ⟨List.perm_insertionSort rank_le ps, ?_, ?_⟩
  · exact List.Pairwise.imp (fun hab => (rank_le_iff _ _).1 hab)
      (List.sorted_insertionSort rank_le ps)
  · intro l r
    unfold rank_lt
    split_ifs with h
    · rw [decide_eq_true_eq]
      omega
    · rw [decide_eq_true_eq]
      omega

theorem mask_inv_append (p : List Nat) (m : List Char) (y : Nat) (c : Char)
    (hl : p.length = m.length)
    (hinv : ∀ i, i < m.length → (m.getD i '?' = 'x' ∨ m.getD i '?' = '?') ∧
      (m.getD i '?' = '?' → p.getD i 1 = 0))
    (hc : c = 'x' ∨ (c = '?' ∧ y = 0)) :
    ∀ i, i < (m ++ [c]).length →
      ((m ++ [c]).getD i '?' = 'x' ∨ (m ++ [c]).getD i '?' = '?') ∧
      ((m ++ [c]).getD i '?' = '?' → (p ++ [y]).getD i 1 = 0) := by
  intro i hi
  simp only [List.length_append, List.length_cons, List.length_nil] at hi
  rcases Nat.lt_or_ge i m.length with hlt | hge
  · rw [List.getD_append _ _ _ _ hlt, List.getD_append _ _ _ _ (show i < p.length by omega)]
    exact hinv i hlt
  · have hieq : i = m.length := by omega
    subst hieq
    rw [List.getD_append_right _ _ _ _ (Nat.le_refl _), Nat.sub_self]
    rw [show m.length = p.length from hl.symm,
      List.getD_append_right _ _ _ _ (Nat.le_refl _), Nat.sub_self]
    rcases hc with hcx | ⟨hcq, hy0⟩
    · subst hcx
      exact ⟨Or.inl rfl, fun habs => absurd habs (by decide)⟩
    · subst hcq
      subst hy0
      exact ⟨Or.inr rfl, fun _ => rfl⟩

theorem gen_round_aux_spec (k : Nat) :
    ∀ p m g, p.length = m.length →
      (∀ i, i < m.length → (m.getD i '?' = 'x' ∨ m.getD i '?' = '?') ∧
        (m.getD i '?' = '?' → p.getD i 1 = 0)) →
      (gen_round_aux k (p, m, g)).1.length = (gen_round_aux k (p, m, g)).2.1.length ∧
      (gen_round_aux k (p, m, g)).2.1.length = m.length + k ∧
      (∀ i, i < (gen_round_aux k (p, m, g)).2.1.length →
        ((gen_round_aux k (p, m, g)).2.1.getD i '?' = 'x' ∨
          (gen_round_aux k (p, m, g)).2.1.getD i '?' = '?') ∧
        ((gen_round_aux k (p, m, g)).2.1.getD i '?' = '?' →
          (gen_round_aux k (p, m, g)).1.getD i 1 = 0)) := by
  induction k with
  | zero =>
    intro p m g hl hinv
    exact ⟨hl, rfl, hinv⟩
  | succ k ih =>
    intro p m g hl hinv
    have hnext : ∀ (y : Nat) (c : Char), c = 'x' ∨ (c = '?' ∧ y = 0) → ∀ g1 : MT,
        (gen_round_aux k (p ++ [y], m ++ [c], g1)).1.length =
            (gen_round_aux k (p ++ [y], m ++ [c], g1)).2.1.length ∧
        (gen_round_aux k (p ++ [y], m ++ [c], g1)).2.1.length = (m ++ [c]).length + k ∧
        (∀ i, i < (gen_round_aux k (p ++ [y], m ++ [c], g1)).2.1.length →
          ((gen_round_aux k (p ++ [y], m ++ [c], g1)).2.1.getD i '?' = 'x' ∨
            (gen_round_aux k (p ++ [y], m ++ [c], g1)).2.1.getD i '?' = '?') ∧
          ((gen_round_aux k (p ++ [y], m ++ [c], g1)).2.1.getD i '?' = '?' →
            (gen_round_aux k (p ++ [y], m ++ [c], g1)).1.getD i 1 = 0)) :=
      fun y c hc g1 =>
        ih (p ++ [y]) (m ++ [c]) g1 (by simp [hl]) (mask_inv_append p m y c hl hinv hc)
    simp only [gen_round_aux]
    by_cases hb : (bernoulli9 g).1 = true
    · simp only [hb, if_true]
      obtain ⟨h1, h2, h3⟩ := hnext (uniform_int 0 255 (bernoulli9 g).2).1 'x' (Or.inl rfl)
        (uniform_int 0 255 (bernoulli9 g).2).2
      refine ⟨h1, ?_, h3⟩
      rw [h2]
      simp only [List.length_append, List.length_cons, List.length_nil]
      omega
    · simp only [hb, Bool.false_eq_true, if_false]
      obtain ⟨h1, h2, h3⟩ := hnext 0 '?' (Or.inr ⟨rfl, rfl⟩) (bernoulli9 g).2
      refine ⟨h1, ?_, h3⟩
      rw [h2]
      simp only [List.length_append, List.length_cons, List.length_nil]
      omega

/-- Claim C5: whenever the pattern loop emits a pattern, its mask has at least
one fixed position 'x' (a pass drawing only wildcards regenerates instead of
emitting), every wildcard position carries pattern byte 0, and pattern and
mask both have the drawn length. -/
theorem gen_pattern_never_all_wildcard (plen fuel : Nat) (g : MT)
    (p : List Nat) (m : List Char) (g' : MT)
    (h : gen_pattern plen fuel g = some (p, m, g')) :
    (∃ i, i < m.length ∧ m.getD i '?' = 'x')
    ∧ (∀ i, i < m.length → m.getD i '?' = '?' → p.getD i 1 = 0)
    ∧ p.length = plen ∧ m.length = plen
    ∧ ∀ (g0 : MT) (fuel0 : Nat), (gen_round plen g0).2.1.contains 'x' = false →
        gen_pattern plen (fuel0 + 1) g0 = gen_pattern plen fuel0 (gen_round plen g0).2.2 := by
  have hregen : ∀ (g0 : MT) (fuel0 : Nat), (gen_round plen g0).2.1.contains 'x' = false →
      gen_pattern plen (fuel0 + 1) g0 = gen_pattern plen fuel0 (gen_round plen g0).2.2 := by
    intro g0 fuel0 hng
    rw [gen_pattern, if_neg (by rw [hng]; exact Bool.false_ne_true)]
  induction fuel generalizing g with
  | zero => exact absurd h (by simp [gen_pattern])
  | succ fuel ih =>
    rw [gen_pattern] at h
    by_cases hc : (gen_round plen g).2.1.contains 'x' = true
    · rw [if_pos hc, Option.some_inj] at h
      have spec := gen_round_aux_spec plen [] [] g rfl (fun i hi => absurd hi (by simp))
      rw [show gen_round_aux plen ([], [], g) = gen_round plen g from rfl, h] at spec
      obtain ⟨s1, s2, s3⟩ := spec
      have hml : m.length = plen := by simpa using s2
      have hpl : p.length = plen := by
        have := s1
        simp only at this
        omega
      refine ⟨?_, ?_, hpl, hml, hregen⟩
      · rw [h] at hc
        have hmem : 'x' ∈ m := by
          simp only [List.contains_iff_exists_mem_beq, beq_iff_eq] at hc
          obtain ⟨b, hb, hbeq⟩ := hc
          rw [hbeq]
          exact hb
        obtain ⟨i, hi, hgi⟩ := List.mem_iff_getElem.1 hmem
        exact ⟨i, hi, by rw [List.getD_eq_getElem m '?' hi, hgi]⟩
      · intro i hi hq
        exact (s3 i hi).2 hq
    · rw [if_neg hc] at h
      exact ih _ h

/-- Claim C3: with a non-zero seed the entropy source is never consulted, so
two runs over the same haystack source produce identical scenario sequences —
same window offsets, patterns, masks, implant offsets and expected sets. -/
theorem run_bench_deterministic (seed e1 e2 page_size : Nat) (src : Option (List Nat))
    (h : seed ≠ 0) :
    run_bench seed e1 page_size src = run_bench seed e2 page_size src := by
  unfold run_bench create_twister
  simp only [if_neg h]

/-- Witness for C3 at seed 1. -/
theorem run_bench_deterministic_witness :
    run_bench 1 0 4096 (Option.none) = run_bench 1 99 4096 (Option.none) :=
  run_bench_deterministic 1 0 99 4096 (Option.none) (by decide)

/-- Claim C1: the verifier reports success exactly when the set of relative
offsets (each returned absolute address minus the scenario's window base)
equals the expected set — identical cardinality and identical membership, so
any single extra or missing offset yields failure for that scenario. -/
theorem verifier_sound (expected : Finset Nat) (base : Nat) (results : List Nat) :
    check_results expected base results = true ↔ shift_results base results = expected :=
  check_results_true_iff expected base results

/-- Witness for C5: a concrete engine state whose first pass draws five fixed
positions, so the loop emits after one round. -/
theorem gen_pattern_never_all_wildcard_witness :
    (∃ i, i < (['x', 'x', 'x', 'x', 'x'] : List Char).length ∧
      (['x', 'x', 'x', 'x', 'x'] : List Char).getD i '?' = 'x')
    ∧ (∀ i, i < (['x', 'x', 'x', 'x', 'x'] : List Char).length →
        (['x', 'x', 'x', 'x', 'x'] : List Char).getD i '?' = '?' →
        ([0, 0, 0, 0, 0] : List Nat).getD i 1 = 0)
    ∧ ([0, 0, 0, 0, 0] : List Nat).length = 5
    ∧ (['x', 'x', 'x', 'x', 'x'] : List Char).length = 5
    ∧ (∀ (g0 : MT) (fuel0 : Nat), (gen_round 5 g0).2.1.contains 'x' = false →
        gen_pattern 5 (fuel0 + 1) g0 = gen_pattern 5 fuel0 (gen_round 5 g0).2.2) :=
  gen_pattern_never_all_wildcard 5 1 (MT.mk (List.replicate 10 0) 0)
    [0, 0, 0, 0, 0] ['x', 'x', 'x', 'x', 'x'] (MT.mk (List.replicate 10 0) 10) (by decide)

/-- Claim C6: after `reset` with content size `region_size`, `full_size` is
`region_size` rounded up to the page size (a page multiple, at least the
size, less than one page more), the raw allocation spans
`full_size + 2 * page_size` bytes, its first and last page are no-access, and
the usable window begins exactly `page_size` bytes past the raw base. -/
theorem reset_layout_spec (region_size page_size : Nat) (hp : 0 < page_size) :
    (reset_layout region_size page_size).full_size % page_size = 0
    ∧ region_size ≤ (reset_layout region_size page_size).full_size
    ∧ (reset_layout region_size page_size).full_size < region_size + page_size
    ∧ (reset_layout region_size page_size).raw_size =
        (reset_layout region_size page_size).full_size + 2 * page_size
    ∧ (∀ a, a < page_size →
        (reset_layout region_size page_size).prot a = prot_flags.noaccess)
    ∧ (∀ a, (reset_layout region_size page_size).raw_size - page_size ≤ a →
        a < (reset_layout region_size page_size).raw_size →
        (reset_layout region_size page_size).prot a = prot_flags.noaccess)
    ∧ (reset_layout region_size page_size).window_off = page_size := by
  obtain ⟨h1, h2, h3⟩ := page_ceil_spec region_size page_size hp
  refine ⟨h1, h2, h3, ?_, ?_, ?_, rfl⟩
  · show page_ceil region_size page_size + page_size * 2 =
      page_ceil region_size page_size + 2 * page_size
    omega
  · intro a ha
    show protect_modify
      (protect_modify (fun _ => prot_flags.rw) 0 page_size prot_flags.noaccess)
      (page_ceil region_size page_size + page_size * 2 - page_size) page_size
      prot_flags.noaccess a = prot_flags.noaccess
    unfold protect_modify
    split_ifs <;> first | rfl | omega
  · intro a hge hlt
    replace hge : page_ceil region_size page_size + page_size * 2 - page_size ≤ a := hge
    replace hlt : a < page_ceil region_size page_size + page_size * 2 := hlt
    show protect_modify
      (protect_modify (fun _ => prot_flags.rw) 0 page_size prot_flags.noaccess)
      (page_ceil region_size page_size + page_size * 2 - page_size) page_size
      prot_flags.noaccess a = prot_flags.noaccess
    unfold protect_modify
    split_ifs <;> first | rfl | omega

/-- Witness for C6 at a 4096-byte page and content size 100. -/
theorem reset_layout_spec_witness :
    (reset_layout 100 4096).full_size % 4096 = 0
    ∧ 100 ≤ (reset_layout 100 4096).full_size
    ∧ (reset_layout 100 4096).full_size < 100 + 4096
    ∧ (reset_layout 100 4096).raw_size = (reset_layout 100 4096).full_size + 2 * 4096
    ∧ (∀ a, a < 4096 → (reset_layout 100 4096).prot a = prot_flags.noaccess)
    ∧ (∀ a, (reset_layout 100 4096).raw_size - 4096 ≤ a →
        a < (reset_layout 100 4096).raw_size →
        (reset_layout 100 4096).prot a = prot_flags.noaccess)
    ∧ (reset_layout 100 4096).window_off = 4096 :=
  reset_layout_spec 100 4096 (by decide)

/-- Claim C7: re-filling from content no longer than the page-rounded size
leaves the first `full_size - content_size` window bytes zero and the content
right-aligned in the final `content_size` bytes; on an exact fill the padding
is zero-length. -/
theorem reset_fill_spec (content : List Nat) (page_size : Nat) (hp : 0 < page_size) :
    (reset_fill content page_size).length = page_ceil content.length page_size
    ∧ (∀ i, i < page_ceil content.length page_size - content.length →
        (reset_fill content page_size).getD i 1 = 0)
    ∧ (∀ j, j < content.length →
        (reset_fill content page_size).getD
          (page_ceil content.length page_size - content.length + j) 0 = content.getD j 0)
    ∧ (content.length = page_ceil content.length page_size →
        page_ceil content.length page_size - content.length = 0) := by
  obtain ⟨_, h2, _⟩ := page_ceil_spec content.length page_size hp
  refine ⟨?_, ?_, ?_, fun h => by omega⟩
  · show (List.replicate (page_ceil content.length page_size - content.length) 0
      ++ content).length = _
    simp only [List.length_append, List.length_replicate]
    omega
  · intro i hi
    show (List.replicate (page_ceil content.length page_size - content.length) 0
      ++ content).getD i 1 = 0
    rw [List.getD_append _ _ _ _ (by simpa using hi)]
    rw [List.getD_eq_getElem _ _ (by simpa using hi)]
    exact List.getElem_replicate _ _
  · intro j hj
    show (List.replicate (page_ceil content.length page_size - content.length) 0
      ++ content).getD _ 0 = content.getD j 0
    rw [List.getD_append_right _ _ _ _ (by simp)]
    simp only [List.length_replicate, Nat.add_sub_cancel_left]

/-- Witness for C7: content [7, 8] with a 4-byte page gives window
[0, 0, 7, 8]. -/
theorem reset_fill_spec_witness :
    (reset_fill [7, 8] 4).length = page_ceil ([7, 8] : List Nat).length 4
    ∧ (∀ i, i < page_ceil ([7, 8] : List Nat).length 4 - ([7, 8] : List Nat).length →
        (reset_fill [7, 8] 4).getD i 1 = 0)
    ∧ (∀ j, j < ([7, 8] : List Nat).length →
        (reset_fill [7, 8] 4).getD
          (page_ceil ([7, 8] : List Nat).length 4 - ([7, 8] : List Nat).length + j) 0 =
          ([7, 8] : List Nat).getD j 0)
    ∧ (([7, 8] : List Nat).length = page_ceil ([7, 8] : List Nat).length 4 →
        page_ceil ([7, 8] : List Nat).length 4 - ([7, 8] : List Nat).length = 0) :=
  reset_fill_spec [7, 8] 4 (by decide)

/-- Witness for C8: stamping [9, 9] with mask "x?" at offset 1 into
[1, 2, 3, 4] writes index 1 and leaves index 2 (the wildcard) unchanged. -/
theorem stamp_frame_witness :
    (stamp [1, 2, 3, 4] 1 [9, 9] ['x', '?']).getD 1 0 = 9
    ∧ (stamp [1, 2, 3, 4] 1 [9, 9] ['x', '?']).getD 2 0 = 3 := by
  have h := stamp_frame [1, 2, 3, 4] 1 [9, 9] ['x', '?'] (by decide)
  refine ⟨h.1 0 (by decide) (by decide) (by decide), ?_⟩
  have h2 := h.2 2 (by decide)
  rw [h2]
  rfl

/-- Claim C9: the Simple baseline plugin computes exactly the oracle function
used to build the expected set; its shifted result set equals the expected
set for every scenario, so (absent a fault, which the model cannot produce)
it passes verification. -/
theorem simple_scanner_matches_oracle (base : Nat) (data : List Nat) (pattern : List Nat)
    (mask : List Char) (hlen : data.length < 2 ^ 64) :
    simple_scan base data pattern mask = FindPatternSimple base data pattern mask
    ∧ shift_results base (simple_scan base data pattern mask) =
        (find_all data pattern mask).toFinset
    ∧ check_results ((find_all data pattern mask).toFinset) base
        (simple_scan base data pattern mask) = true := by
  have hshift : shift_results base (simple_scan base data pattern mask) =
      (find_all data pattern mask).toFinset := by
    unfold simple_scan FindPatternSimple shift_results
    rw [List.map_map]
    have hpt : ∀ o ∈ find_all data pattern mask,
        (shift_offset base ∘ fun o => base + o) o = id o := by
      intro o ho
      have hor : o < data.length + 1 - pattern.length := by
        have := List.mem_filter.1 ho
        exact List.mem_range.1 this.1
      have ho64 : o < 2 ^ 64 := by omega
      show (2 ^ 64 + (base + o) - base) % 2 ^ 64 = o
      rw [show 2 ^ 64 + (base + o) - base = 2 ^ 64 + o by omega, Nat.add_mod_left]
      exact Nat.mod_eq_of_lt ho64
    rw [List.map_congr_left hpt, List.map_id]
  refine ⟨rfl, hshift, ?_⟩
  rw [check_results_true_iff]
  exact hshift

/-- Witness for C9 on a concrete scenario: window [1, 2, 2] at base address
100, pattern [2] with mask "x". -/
theorem simple_scanner_matches_oracle_witness :
    simple_scan 100 [1, 2, 2] [2] ['x'] = FindPatternSimple 100 [1, 2, 2] [2] ['x']
    ∧ shift_results 100 (simple_scan 100 [1, 2, 2] [2] ['x']) =
        (find_all [1, 2, 2] [2] ['x']).toFinset
    ∧ check_results ((find_all [1, 2, 2] [2] ['x']).toFinset) 100
        (simple_scan 100 [1, 2, 2] [2] ['x']) = true :=
  simple_scanner_matches_oracle 100 [1, 2, 2] [2] ['x'] (by decide)

/-- Claim C10: an input file that cannot be opened — absent or unreadable —
is a fatal setup failure: tellg reports 2^64 - 1, the byte_buffer allocation
of that size cannot succeed, and the escaping failure aborts the process
before any scenario runs. -/
theorem setup_unreadable_file_fatal (page_size : Nat) :
    setup_from_file file_source.no_open page_size = Except.error () :=
  rfl

end PatternBench
